import Mathlib

/-!
Verification of the AGMMRCalculator core (src/src/main.ts) against its
natural-language specification.

The embedding models numbers (`number` in the source) as rationals `ℚ`,
MMR totals and deltas as integers `ℤ` (they are produced by `Math.round`
and integer clamps), and the `Map<string, Rating>` rating cache as an
association list in which the most recent binding for a key wins — this
reproduces the observable `get` / `has` / `set` behaviour of the Map.

The helper modules the orchestrator imports (`./performance`, `./rating`,
`./team`, `../types/player-performance`) and the openskill oracle are not
part of the repository sources available under src/, so they are modelled
from the spec as abstract parameters gathered in the `Externals` structure;
every definition below that consumes them is faithful to the orchestrator's
code in src/src/main.ts.
-/

/-- Skill rating: the openskill `Rating` object, a pair of mean skill
estimate `mu` and uncertainty `sigma`. -/
structure Rating where
  mu : ℚ
  sigma : ℚ
deriving DecidableEq, Repr

/-- The fields of the persisted `Player` entity that the calculator reads:
the identity key and the persisted rating components. -/
structure Player where
  steamID : String
  skillMu : ℚ
  skillSigma : ℚ
deriving DecidableEq, Repr

/-- Modelled from the spec: `PlayerPerformance` (../types/player-performance)
carries a normalized `score` plus a debugging-only `adjustment` field; only
`score` influences any output of the calculator, so only `score` is modelled
(the write-only `performance.adjustment` store in processMatch is dropped). -/
structure PlayerPerformance where
  score : ℚ
deriving DecidableEq, Repr

/-- One match participation record (`MatchDetail` entity): the fields the
calculator reads and the two output fields it writes.  The combat
statistics are opaque inputs consumed only by the external helpers, which
are abstract here, so they are represented by one opaque field. -/
structure MatchDetail where
  player : Player
  stats : ℚ
  mmrAfterMatch : ℤ
  mmrDelta : ℤ
deriving DecidableEq, Repr

/-- The two team colors. -/
inductive Winner where
  | blue
  | red
deriving DecidableEq, Repr

/-- The `Map<string, Rating>` rating cache, as an association list where the
most recent binding for a key wins. -/
def Store := List (String × Rating)

/-- `Map.get(steamID)`: the most recent binding for the key, if any. -/
def Store.get? (st : Store) (steamID : String) : Option Rating :=
  (List.find? (fun p => p.1 == steamID) st).map (fun p => p.2)

/-- `Map.set(steamID, r)`: bind the key to `r`, shadowing older bindings. -/
def Store.set (st : Store) (steamID : String) (r : Rating) : Store :=
  (steamID, r) :: st

/-- The empty rating cache. -/
def Store.empty : Store := []

theorem Store.get?_set_self (st : Store) (k : String) (r : Rating) :
    Store.get? (Store.set st k r) k = some r := by
  simp [Store.get?, Store.set, List.find?]

theorem Store.get?_set_ne (st : Store) (k k' : String) (r : Rating) (h : k' ≠ k) :
    Store.get? (Store.set st k r) k' = Store.get? st k' := by
  simp [Store.get?, Store.set, List.find?]
  have : (k == k') = false := by
    simpa [beq_iff_eq] using fun hk => h hk.symm
  simp [this]

/-- openskill's `rating({mu, sigma})` with both fields supplied returns a
rating with exactly those components. -/
def rating (mu sigma : ℚ) : Rating :=
  { mu := mu, sigma := sigma }

/-- `AGMMRCalculator.ensurePlayerRatings` (src/src/main.ts:50-58): for each
player in the list, build a rating from the player's persisted
`(skillMu, skillSigma)` and `set` it into the cache.  Note the source sets
unconditionally — there is no presence check. -/
def ensurePlayerRatings (st : Store) (players : List Player) : Store :=
  players.foldl (fun s player => Store.set s player.steamID (rating player.skillMu player.skillSigma)) st

/-- Keys not named by any player in the list are untouched. -/
theorem ensurePlayerRatings_get?_not_mem (players : List Player) (st : Store) (k : String)
    (h : k ∉ players.map Player.steamID) :
    Store.get? (ensurePlayerRatings st players) k = Store.get? st k := by
  induction players generalizing st with
  | nil => rfl
  | cons p rest ih =>
    simp only [List.map_cons, List.mem_cons, not_or] at h
    simp only [ensurePlayerRatings, List.foldl_cons]
    rw [show (rest.foldl (fun s player => Store.set s player.steamID (rating player.skillMu player.skillSigma))
          (Store.set st p.steamID (rating p.skillMu p.skillSigma)))
        = ensurePlayerRatings (Store.set st p.steamID (rating p.skillMu p.skillSigma)) rest from rfl]
    rw [ih _ h.2, Store.get?_set_ne _ _ _ _ h.1]

/-- For keys named by some player in the list, the result does not depend on
the starting store: the last matching player's fields win. -/
theorem ensurePlayerRatings_get?_mem (players : List Player) (st st' : Store) (k : String)
    (h : k ∈ players.map Player.steamID) :
    Store.get? (ensurePlayerRatings st players) k = Store.get? (ensurePlayerRatings st' players) k := by
  induction players generalizing st st' with
  | nil => simp [List.map_nil] at h
  | cons p rest ih =>
    simp only [ensurePlayerRatings, List.foldl_cons]
    rw [show ∀ s, (rest.foldl (fun s player => Store.set s player.steamID (rating player.skillMu player.skillSigma)) s)
        = ensurePlayerRatings s rest from fun _ => rfl,
      show ∀ s, (rest.foldl (fun s player => Store.set s player.steamID (rating player.skillMu player.skillSigma)) s)
        = ensurePlayerRatings s rest from fun _ => rfl]
    by_cases hk : k ∈ rest.map Player.steamID
    · exact ih _ _ hk
    · simp only [List.map_cons, List.mem_cons] at h
      rcases h with h | h
      · rw [ensurePlayerRatings_get?_not_mem _ _ _ hk, ensurePlayerRatings_get?_not_mem _ _ _ hk, h,
          Store.get?_set_self, Store.get?_set_self]
      · exact absurd h hk

/-- C1 counterexample: a player already present in the store with rating
(10, 1) does NOT keep its stored rating across `ensurePlayerRatings` — the
call overwrites it with the rating built from the supplied fields. -/
theorem ensurePlayerRatings_overwrites_existing_counterexample :
    Store.get? (ensurePlayerRatings (Store.set Store.empty "a" (rating 10 1))
        [{ steamID := "a", skillMu := 25, skillSigma := 8 }]) "a" = some (rating 25 8) ∧
      (rating 25 8 : Rating) ≠ rating 10 1 := by
  constructor
  · rfl
  · decide

/-- C1 (amended): `ensurePlayerRatings` seeds every listed player from its
`(skillMu, skillSigma)` fields, overwriting any existing entry, and it is
idempotent as a store transformer: a second call with the same player list
changes no lookup.  A player whose steamID occurs once in the list ends
mapped to exactly the rating built from its fields. -/
theorem ensurePlayerRatings_amended_idempotent (st : Store) (players : List Player) :
    (∀ k, Store.get? (ensurePlayerRatings (ensurePlayerRatings st players) players) k
        = Store.get? (ensurePlayerRatings st players) k) ∧
    (∀ p, p ∈ players → (∀ q ∈ players, q.steamID = p.steamID → q = p) →
      Store.get? (ensurePlayerRatings st players) p.steamID = some (rating p.skillMu p.skillSigma)) := by
  constructor
  · intro k
    by_cases hk : k ∈ players.map Player.steamID
    · exact ensurePlayerRatings_get?_mem _ _ _ _ hk
    · rw [ensurePlayerRatings_get?_not_mem _ _ _ hk]
  · intro p hp huniq
    induction players generalizing st with
    | nil => simp at hp
    | cons q rest ih =>
      simp only [ensurePlayerRatings, List.foldl_cons]
      rw [show ∀ s, (rest.foldl (fun s player => Store.set s player.steamID (rating player.skillMu player.skillSigma)) s)
          = ensurePlayerRatings s rest from fun _ => rfl]
      rcases List.mem_cons.mp hp with hpq | hpr
      · subst hpq
        by_cases hin : p.steamID ∈ rest.map Player.steamID
        · rcases List.mem_map.mp hin with ⟨q', hq', hq'id⟩
          have hq'p : q' = p := huniq q' (List.mem_cons_of_mem _ hq') hq'id
          exact ih _ (hq'p ▸ hq') (fun q'' hq'' hid => huniq q'' (List.mem_cons_of_mem _ hq'') hid)
        · rw [ensurePlayerRatings_get?_not_mem _ _ _ hin, Store.get?_set_self]
      · exact ih _ hpr (fun q' hq' hid => huniq q' (List.mem_cons_of_mem _ hq') hid)

/-- JavaScript's `Math.round`: for finite inputs this is `⌊x + 1/2⌋`
(halves round toward positive infinity). -/
def jsRound (x : ℚ) : ℤ := ⌊x + 1/2⌋

/-- `AGMMRCalculator.convertRatingChangeToMMR` (src/src/main.ts:295-309):
`muChange * 5 + sigmaReduction * 1.5` where the sigma reduction is floored
at zero. -/
def convertRatingChangeToMMR (oldRating newRating : Rating) : ℚ :=
  let muChange := newRating.mu - oldRating.mu
  let sigmaReduction := max 0 (oldRating.sigma - newRating.sigma)
  muChange * 5 + sigmaReduction * (3/2)

/-- C7: the base MMR change equals
`(newRating.mu − oldRating.mu) × 5 + max(0, oldRating.sigma − newRating.sigma) × 1.5`;
the sigma term is never negative, and a sigma increase contributes nothing. -/
theorem convertRatingChangeToMMR_spec (oldRating newRating : Rating) :
    convertRatingChangeToMMR oldRating newRating
        = (newRating.mu - oldRating.mu) * 5 + max 0 (oldRating.sigma - newRating.sigma) * (3/2) ∧
      0 ≤ max 0 (oldRating.sigma - newRating.sigma) ∧
      (oldRating.sigma ≤ newRating.sigma →
        convertRatingChangeToMMR oldRating newRating = (newRating.mu - oldRating.mu) * 5) := by
  refine ⟨rfl, le_max_left _ _, fun h => ?_⟩
  have hmax : max 0 (oldRating.sigma - newRating.sigma) = 0 :=
    max_eq_left (by linarith)
  simp [convertRatingChangeToMMR, hmax]

/-- C7 witness: at concrete ratings with a sigma increase, the base change
is the pure mu term. -/
theorem convertRatingChangeToMMR_spec_witness :
    (rating 25 8).sigma ≤ (rating 26 9).sigma ∧
      convertRatingChangeToMMR (rating 25 8) (rating 26 9) = ((rating 26 9).mu - (rating 25 8).mu) * 5 :=
  ⟨by norm_num [rating], (convertRatingChangeToMMR_spec (rating 25 8) (rating 26 9)).2.2 (by norm_num [rating])⟩

/-- `AGMMRCalculator.calculateBalanceFactor` (src/src/main.ts:336-363). -/
def calculateBalanceFactor (skillDifference : ℚ) (isWin : Bool)
    (playerTeamSkill opponentTeamSkill : ℚ) : ℚ :=
  let factor : ℚ :=
    if skillDifference > 3 then
      -- upset: the weaker-average team won, or the stronger-average team lost
      if (isWin = true ∧ playerTeamSkill < opponentTeamSkill) ∨
          (isWin = false ∧ playerTeamSkill > opponentTeamSkill) then
        13/10 + min (2/5) (skillDifference / 10)
      else
        4/5 - min (1/5) (skillDifference / 15)
    else 1
  max (1/2) (min (9/5) factor)

/-- C5: the balance factor is always in [0.5, 1.8]; it is exactly 1 when the
skill difference is ≤ 3; above that threshold it is the upset formula
`1.3 + min(0.4, d/10)` for upsets and the expected-outcome formula
`0.8 − min(0.2, d/15)` otherwise, clamped to [0.5, 1.8]. -/
theorem calculateBalanceFactor_spec (skillDifference : ℚ) (isWin : Bool)
    (playerTeamSkill opponentTeamSkill : ℚ) :
    (1/2 ≤ calculateBalanceFactor skillDifference isWin playerTeamSkill opponentTeamSkill ∧
      calculateBalanceFactor skillDifference isWin playerTeamSkill opponentTeamSkill ≤ 9/5) ∧
    (skillDifference ≤ 3 →
      calculateBalanceFactor skillDifference isWin playerTeamSkill opponentTeamSkill = 1) ∧
    (skillDifference > 3 →
      ((isWin = true ∧ playerTeamSkill < opponentTeamSkill) ∨
          (isWin = false ∧ playerTeamSkill > opponentTeamSkill) →
        calculateBalanceFactor skillDifference isWin playerTeamSkill opponentTeamSkill
          = max (1/2) (min (9/5) (13/10 + min (2/5) (skillDifference / 10)))) ∧
      (¬((isWin = true ∧ playerTeamSkill < opponentTeamSkill) ∨
          (isWin = false ∧ playerTeamSkill > opponentTeamSkill)) →
        calculateBalanceFactor skillDifference isWin playerTeamSkill opponentTeamSkill
          = max (1/2) (min (9/5) (4/5 - min (1/5) (skillDifference / 15))))) := by
  refine ⟨⟨le_max_left _ _, ?_⟩, fun hle => ?_, fun hgt => ⟨fun hupset => ?_, fun hexp => ?_⟩⟩
  · exact max_le (by norm_num) (min_le_left _ _)
  · have : ¬ skillDifference > 3 := not_lt.mpr hle
    simp only [calculateBalanceFactor, this, if_false]
    norm_num
  · simp only [calculateBalanceFactor, hgt, if_true, hupset]
  · simp only [calculateBalanceFactor, hgt, if_true, hexp, if_false]

/-- C5 witness: a 5-point skill gap won by the weaker team yields the upset
formula, here 1.7, and a 2-point gap yields exactly 1. -/
theorem calculateBalanceFactor_spec_witness :
    ((5 : ℚ) > 3 ∧ ((true = true ∧ (20 : ℚ) < 25) ∨ (true = false ∧ (20 : ℚ) > 25))) ∧
      calculateBalanceFactor 5 true 20 25 = max (1/2) (min (9/5) (13/10 + min (2/5) (5 / 10))) ∧
      ((2 : ℚ) ≤ 3 ∧ calculateBalanceFactor 2 true 20 25 = 1) :=
  ⟨⟨by norm_num, Or.inl ⟨rfl, by norm_num⟩⟩,
    ((calculateBalanceFactor_spec 5 true 20 25).2.2 (by norm_num)).1 (Or.inl ⟨rfl, by norm_num⟩),
    ⟨by norm_num, (calculateBalanceFactor_spec 2 true 20 25).2.1 (by norm_num)⟩⟩

/-- `AGMMRCalculator.clampMMRDelta` (src/src/main.ts:377-385): winners gain
at least 2 and at most 40; losers lose at least 2 and at most 40. -/
def clampMMRDelta (mmrDelta : ℤ) (isWin : Bool) : ℤ :=
  if isWin then max 2 (min 40 mmrDelta)
  else max (-40) (min (-2) mmrDelta)

theorem clampMMRDelta_bounds (mmrDelta : ℤ) (isWin : Bool) :
    (isWin = true → 2 ≤ clampMMRDelta mmrDelta isWin ∧ clampMMRDelta mmrDelta isWin ≤ 40) ∧
    (isWin = false → -40 ≤ clampMMRDelta mmrDelta isWin ∧ clampMMRDelta mmrDelta isWin ≤ -2) ∧
    clampMMRDelta mmrDelta isWin ≠ 0 := by
  cases isWin
  · refine ⟨fun h => by simp at h, fun _ => ?_, ?_⟩
    · show (-40 : ℤ) ≤ max (-40) (min (-2) mmrDelta) ∧ max (-40) (min (-2) mmrDelta) ≤ -2
      exact ⟨le_max_left _ _, max_le (by norm_num) (min_le_left _ _)⟩
    · show ¬ max (-40) (min (-2) mmrDelta) = 0
      have h2 : max (-40) (min (-2) mmrDelta) ≤ -2 :=
        max_le (by norm_num) (min_le_left _ _)
      omega
  · refine ⟨fun _ => ?_, fun h => by simp at h, ?_⟩
    · show (2 : ℤ) ≤ max 2 (min 40 mmrDelta) ∧ max 2 (min 40 mmrDelta) ≤ 40
      exact ⟨le_max_left _ _, max_le (by norm_num) (min_le_left _ _)⟩
    · show ¬ max 2 (min 40 mmrDelta) = 0
      have h1 : (2 : ℤ) ≤ max 2 (min 40 mmrDelta) := le_max_left _ _
      omega

/-- Modelled from the spec: the helper modules imported by the orchestrator
(`./performance`, `./rating`, `./team`) and the openskill `rate` oracle are
not under src/, so they are abstract parameters with exactly the signatures
the orchestrator uses.  `calculateInitialMMR` takes an optional rating
because the orchestrator passes it `newRatings[teamIdx]?.[idx]`, which can
be absent; `rate` takes the two rosters and the rank tuple and returns the
updated rosters. -/
structure Externals where
  organizeTeams : List MatchDetail → List MatchDetail × List MatchDetail
  determineWinner : List MatchDetail → List MatchDetail → Winner
  calculateIndividualPerformance : MatchDetail → List MatchDetail → PlayerPerformance
  calculatePerformanceAdjustment : PlayerPerformance → Bool → Nat → ℚ
  calculateInitialMMR : Option Rating → PlayerPerformance → ℤ
  calculateSkillProxy : MatchDetail → ℚ
  calculateInitialRating : ℚ → Rating
  rate : List (List Rating) → List Nat → List (List Rating)

/-- The `teammates` list of `calculateCarryAdjustment`
(src/src/main.ts:232-234): the team minus every record carrying the
subject's steamID. -/
def teammatesOf (playerMatch : MatchDetail) (team : List MatchDetail) : List MatchDetail :=
  team.filter (fun t => t.player.steamID != playerMatch.player.steamID)

/-- The `allMatchDetails` comparison population of
`calculateCarryAdjustment` (src/src/main.ts:239): literally
`[...team, ...teammates]`, i.e. the full team concatenated with the
teammates-minus-subject list. -/
def carryComparisonPopulation (playerMatch : MatchDetail) (team : List MatchDetail) : List MatchDetail :=
  team ++ teammatesOf playerMatch team

/-- The per-teammate performance scores of `calculateCarryAdjustment`
(src/src/main.ts:237-241): each teammate is scored by the same evaluator,
against `carryComparisonPopulation`. -/
def teammatePerformances (E : Externals) (playerMatch : MatchDetail) (team : List MatchDetail) :
    List PlayerPerformance :=
  (teammatesOf playerMatch team).map (fun teammate =>
    E.calculateIndividualPerformance teammate (carryComparisonPopulation playerMatch team))

/-- The average teammate performance score (src/src/main.ts:244-246). -/
def teammateAvgPerformance (E : Externals) (playerMatch : MatchDetail) (team : List MatchDetail) : ℚ :=
  ((teammatePerformances E playerMatch team).map PlayerPerformance.score).sum
    / ((teammatePerformances E playerMatch team).length : ℚ)

/-- `performanceDifference` (src/src/main.ts:249-250). -/
def performanceDifference (E : Externals) (playerMatch : MatchDetail) (team : List MatchDetail)
    (playerPerformance : PlayerPerformance) : ℚ :=
  playerPerformance.score - teammateAvgPerformance E playerMatch team

/-- `AGMMRCalculator.calculateCarryAdjustment` (src/src/main.ts:222-283).
The guard on an empty teammates list mirrors JavaScript semantics: there the
average over zero teammates is `0/0 = NaN`, every comparison against NaN is
false, and the function falls through to `Math.round(0) = 0`. -/
def calculateCarryAdjustment (E : Externals) (playerMatch : MatchDetail) (team : List MatchDetail)
    (playerPerformance : PlayerPerformance) (isWin : Bool) : ℤ :=
  if team.length < 2 then 0
  else if (teammatesOf playerMatch team).isEmpty then 0
  else
    let performanceDiff := performanceDifference E playerMatch team playerPerformance
    if |performanceDiff| < 2/5 then 0
    else
      jsRound
        (if performanceDiff > 2/5 then
          if !isWin then min 18 (performanceDiff * 12) else min 8 (performanceDiff * 4)
        else if performanceDiff < -(2/5) then
          if isWin then max (-12) (performanceDiff * 8) else max (-10) (performanceDiff * 6)
        else 0)

/-- C6: the carry adjustment is 0 for teams smaller than 2, exactly 0 inside
the dead zone `|diff| < 0.4`, and otherwise the rounded quadrant formula
with its cap: outperform-and-lose `min(18, diff×12)`, outperform-and-win
`min(8, diff×4)`, underperform-and-win `max(−12, diff×8)`,
underperform-and-lose `max(−10, diff×6)`.  The quadrant cases presuppose a
non-empty teammates list, without which the average teammate score does not
exist (and the code yields 0 through NaN comparisons). -/
theorem calculateCarryAdjustment_cases (E : Externals) (playerMatch : MatchDetail)
    (team : List MatchDetail) (playerPerformance : PlayerPerformance) (isWin : Bool) :
    (team.length < 2 → calculateCarryAdjustment E playerMatch team playerPerformance isWin = 0) ∧
    (|performanceDifference E playerMatch team playerPerformance| < 2/5 →
      calculateCarryAdjustment E playerMatch team playerPerformance isWin = 0) ∧
    (2 ≤ team.length → teammatesOf playerMatch team ≠ [] →
      performanceDifference E playerMatch team playerPerformance > 2/5 →
      calculateCarryAdjustment E playerMatch team playerPerformance isWin
        = jsRound (if isWin then min 8 (performanceDifference E playerMatch team playerPerformance * 4)
            else min 18 (performanceDifference E playerMatch team playerPerformance * 12))) ∧
    (2 ≤ team.length → teammatesOf playerMatch team ≠ [] →
      performanceDifference E playerMatch team playerPerformance < -(2/5) →
      calculateCarryAdjustment E playerMatch team playerPerformance isWin
        = jsRound (if isWin then max (-12) (performanceDifference E playerMatch team playerPerformance * 8)
            else max (-10) (performanceDifference E playerMatch team playerPerformance * 6))) := by
  refine ⟨fun hsmall => ?_, fun hdead => ?_, fun hsize hmates hout => ?_, fun hsize hmates hunder => ?_⟩
  · simp only [calculateCarryAdjustment, if_pos hsmall]
  · by_cases hsmall : team.length < 2
    · simp only [calculateCarryAdjustment, if_pos hsmall]
    · by_cases hempty : (teammatesOf playerMatch team).isEmpty
      · simp only [calculateCarryAdjustment, if_neg hsmall, if_pos hempty]
      · simp only [calculateCarryAdjustment, if_neg hsmall, if_neg hempty, if_pos hdead]
  · have hsmall : ¬ team.length < 2 := not_lt.mpr hsize
    have hempty : ¬ (teammatesOf playerMatch team).isEmpty := by
      simpa [List.isEmpty_iff] using hmates
    have hdead : ¬ |performanceDifference E playerMatch team playerPerformance| < 2/5 := by
      rw [not_lt]
      calc (2/5 : ℚ) ≤ performanceDifference E playerMatch team playerPerformance := le_of_lt hout
        _ ≤ |performanceDifference E playerMatch team playerPerformance| := le_abs_self _
    simp only [calculateCarryAdjustment, if_neg hsmall, if_neg hempty, if_neg hdead, if_pos hout]
    cases isWin <;> simp
  · have hsmall : ¬ team.length < 2 := not_lt.mpr hsize
    have hempty : ¬ (teammatesOf playerMatch team).isEmpty := by
      simpa [List.isEmpty_iff] using hmates
    have hdead : ¬ |performanceDifference E playerMatch team playerPerformance| < 2/5 := by
      rw [not_lt]
      calc (2/5 : ℚ) ≤ -(performanceDifference E playerMatch team playerPerformance) := by linarith
        _ ≤ |performanceDifference E playerMatch team playerPerformance| := neg_le_abs _
    have hnotout : ¬ performanceDifference E playerMatch team playerPerformance > 2/5 := by linarith
    simp only [calculateCarryAdjustment, if_neg hsmall, if_neg hempty, if_neg hdead,
      if_neg hnotout, if_pos hunder]

/-- A concrete instantiation of the abstract helpers, used to evaluate the
pipeline on concrete inputs: a 1-vs-rest team split, blue always wins,
constant performance scores, and an identity rating oracle. -/
def sampleExternals : Externals where
  organizeTeams := fun mds => (mds.take 1, mds.drop 1)
  determineWinner := fun _ _ => Winner.blue
  calculateIndividualPerformance := fun _ _ => { score := 1 }
  calculatePerformanceAdjustment := fun _ _ _ => 0
  calculateInitialMMR := fun _ _ => 150
  calculateSkillProxy := fun _ => 1
  calculateInitialRating := fun _ => rating 25 8
  rate := fun teams _ => teams

/-- Concrete fixture player on the blue side. -/
def playerA : Player := { steamID := "a", skillMu := 25, skillSigma := 8 }

/-- Concrete fixture player on the red side. -/
def playerB : Player := { steamID := "b", skillMu := 20, skillSigma := 6 }

/-- Concrete participation record for `playerA`. -/
def mdA : MatchDetail := { player := playerA, stats := 0, mmrAfterMatch := 0, mmrDelta := 0 }

/-- Concrete participation record for `playerB`. -/
def mdB : MatchDetail := { player := playerB, stats := 0, mmrAfterMatch := 0, mmrDelta := 0 }

/-- C6 witness: the spec's own example — subject score 2.0 against teammate
average 1.0 on a losing team gives `min(18, 1.0×12) = 12`. -/
theorem calculateCarryAdjustment_cases_witness :
    (2 ≤ ([mdA, mdB] : List MatchDetail).length ∧ teammatesOf mdA [mdA, mdB] ≠ [] ∧
      performanceDifference sampleExternals mdA [mdA, mdB] { score := 2 } > 2/5) ∧
      calculateCarryAdjustment sampleExternals mdA [mdA, mdB] { score := 2 } false = 12 := by
  have hfilter : teammatesOf mdA [mdA, mdB] = [mdB] := by decide
  have hpd : performanceDifference sampleExternals mdA [mdA, mdB] { score := 2 } = 1 := by
    norm_num [performanceDifference, teammateAvgPerformance, teammatePerformances,
      hfilter, carryComparisonPopulation, sampleExternals]
  refine ⟨⟨by decide, by decide, by rw [hpd]; norm_num⟩, ?_⟩
  have h := (calculateCarryAdjustment_cases sampleExternals mdA [mdA, mdB] { score := 2 } false).2.2.1
    (by decide) (by decide) (by rw [hpd]; norm_num)
  rw [h, hpd]
  norm_num [jsRound]

/-- C10: the teammate scores in the carry computation are produced by the
same evaluator over the population `team ++ (team minus the subject)`, so
under distinct steamIDs every other teammate occurs twice in the comparison
population while records carrying the subject's steamID occur only as often
as in the team itself. -/
theorem carryComparisonPopulation_spec (E : Externals) (playerMatch t : MatchDetail)
    (team : List MatchDetail) (hmem : t ∈ team)
    (hne : t.player.steamID ≠ playerMatch.player.steamID)
    (hnodup : (team.map (fun m => m.player.steamID)).Nodup) :
    teammatePerformances E playerMatch team
        = (teammatesOf playerMatch team).map (fun teammate =>
            E.calculateIndividualPerformance teammate (team ++ teammatesOf playerMatch team)) ∧
      (carryComparisonPopulation playerMatch team).count t = 2 ∧
      (carryComparisonPopulation playerMatch team).count playerMatch = team.count playerMatch := by
  refine ⟨rfl, ?_, ?_⟩
  · have hteam : team.Nodup := List.Nodup.of_map _ hnodup
    have h1 : team.count t = 1 := List.count_eq_one_of_mem hteam hmem
    have hpred : (t.player.steamID != playerMatch.player.steamID) = true := by
      simpa [bne_iff_ne] using hne
    have h2 : (teammatesOf playerMatch team).count t = team.count t := by
      simpa [teammatesOf] using List.count_filter (l := team) hpred
    rw [carryComparisonPopulation, List.count_append, h2, h1]
  · have hpm : playerMatch ∉ teammatesOf playerMatch team := by
      intro hm
      rcases List.mem_filter.mp hm with ⟨-, hp⟩
      simp [bne_iff_ne] at hp
    rw [carryComparisonPopulation, List.count_append, List.count_eq_zero.mpr hpm, Nat.add_zero]

/-- C10 witness: with subject `mdA` and team `[mdA, mdB]`, the comparison
population is `[mdA, mdB, mdB]` — the teammate `mdB` appears twice. -/
theorem carryComparisonPopulation_spec_witness :
    (mdB ∈ ([mdA, mdB] : List MatchDetail) ∧ mdB.player.steamID ≠ mdA.player.steamID ∧
      (([mdA, mdB] : List MatchDetail).map (fun m => m.player.steamID)).Nodup) ∧
      (carryComparisonPopulation mdA [mdA, mdB]).count mdB = 2 :=
  ⟨⟨by decide, by decide, by decide⟩,
    (carryComparisonPopulation_spec sampleExternals mdA mdB [mdA, mdB]
      (by decide) (by decide) (by decide)).2.1⟩

/-- C1 witness: seeding an empty store with one player maps that player to
the rating built from its fields. -/
theorem ensurePlayerRatings_amended_idempotent_witness :
    Store.get? (ensurePlayerRatings Store.empty [playerA]) playerA.steamID
      = some (rating playerA.skillMu playerA.skillSigma) :=
  (ensurePlayerRatings_amended_idempotent Store.empty [playerA]).2 playerA
    (by decide) (by decide)

/-- Modelled from the spec: the spec's `InsufficientDataError`, signalled by
a performance computation given no comparison population. -/
inductive PerfError where
  | insufficientData
deriving DecidableEq, Repr

/-- TypeScript `Array.map` over a callback that can throw: the first error
aborts the whole map. -/
def mapExceptList (f : α → Except PerfError β) : List α → Except PerfError (List β)
  | [] => .ok []
  | a :: as =>
    match f a, mapExceptList f as with
    | .ok b, .ok bs => .ok (b :: bs)
    | .error e, _ => .error e
    | .ok _, .error e => .error e

theorem mapExceptList_ok_of_forall_ok (f : α → Except PerfError β) (l : List α)
    (h : ∀ a ∈ l, ∃ b, f a = .ok b) : ∃ bs, mapExceptList f l = .ok bs := by
  induction l with
  | nil => exact ⟨[], rfl⟩
  | cons a as ih =>
    rcases h a (List.mem_cons_self _ _) with ⟨b, hb⟩
    rcases ih (fun a' ha' => h a' (List.mem_cons_of_mem _ ha')) with ⟨bs, hbs⟩
    exact ⟨b :: bs, by simp [mapExceptList, hb, hbs]⟩

/-- `AGMMRCalculator.calculateCarryAdjustment` again, but over an evaluator
that can signal `InsufficientDataError`.  This mirrors the same source lines
(src/src/main.ts:222-283): the source contains no try/catch, so an error
raised while scoring a teammate reaches the caller. -/
def calculateCarryAdjustmentE
    (calcPerf : MatchDetail → List MatchDetail → Except PerfError PlayerPerformance)
    (playerMatch : MatchDetail) (team : List MatchDetail)
    (playerPerformance : PlayerPerformance) (isWin : Bool) : Except PerfError ℤ :=
  if team.length < 2 then .ok 0
  else if (teammatesOf playerMatch team).isEmpty then .ok 0
  else
    match mapExceptList
        (fun teammate => calcPerf teammate (carryComparisonPopulation playerMatch team))
        (teammatesOf playerMatch team) with
    | .error e => .error e
    | .ok teammatePerfs =>
      let avg := ((teammatePerfs.map PlayerPerformance.score).sum) / (teammatePerfs.length : ℚ)
      let performanceDiff := playerPerformance.score - avg
      if |performanceDiff| < 2/5 then .ok 0
      else
        .ok (jsRound
          (if performanceDiff > 2/5 then
            if !isWin then min 18 (performanceDiff * 12) else min 8 (performanceDiff * 4)
          else if performanceDiff < -(2/5) then
            if isWin then max (-12) (performanceDiff * 8) else max (-10) (performanceDiff * 6)
          else 0))

/-- C8 counterexample: the carry computation does NOT convert an evaluator
`InsufficientDataError` into a zero adjustment — with an evaluator that
signals the error, the error propagates to the caller instead. -/
theorem calculateCarryAdjustmentE_propagates_counterexample :
    calculateCarryAdjustmentE (fun _ _ => .error PerfError.insufficientData)
        mdA [mdA, mdB] { score := 1 } false = .error PerfError.insufficientData ∧
      (Except.error PerfError.insufficientData : Except PerfError ℤ) ≠ .ok 0 := by
  constructor
  · rfl
  · intro h
    exact Except.noConfusion h

/-- C8 (amended): the carry sub-computation contains no error handler, so an
evaluator error would propagate to the caller of processMatch; however, with
an evaluator honouring the spec contract — `InsufficientDataError` only on
an empty comparison population — no error can ever arise there, because the
population passed always contains the whole team (of size ≥ 2), and in the
only degenerate case (no teammates besides the subject) the evaluator is
never invoked and the adjustment is 0. -/
theorem calculateCarryAdjustmentE_ok_of_contract
    (calcPerf : MatchDetail → List MatchDetail → Except PerfError PlayerPerformance)
    (playerMatch : MatchDetail) (team : List MatchDetail)
    (playerPerformance : PlayerPerformance) (isWin : Bool)
    (hc : ∀ t pop, pop ≠ [] → ∃ q, calcPerf t pop = .ok q) :
    (∃ z, calculateCarryAdjustmentE calcPerf playerMatch team playerPerformance isWin = .ok z) ∧
      (teammatesOf playerMatch team = [] →
        calculateCarryAdjustmentE calcPerf playerMatch team playerPerformance isWin = .ok 0) := by
  constructor
  · by_cases hsmall : team.length < 2
    · exact ⟨0, by simp [calculateCarryAdjustmentE, if_pos hsmall]⟩
    · by_cases hempty : (teammatesOf playerMatch team).isEmpty
      · exact ⟨0, by simp [calculateCarryAdjustmentE, if_neg hsmall, hempty]⟩
      · have hteam : team ≠ [] := by
          intro h
          exact hsmall (by simp [h])
        have hpop : carryComparisonPopulation playerMatch team ≠ [] := by
          simp [carryComparisonPopulation, hteam]
        rcases mapExceptList_ok_of_forall_ok
            (fun teammate => calcPerf teammate (carryComparisonPopulation playerMatch team))
            (teammatesOf playerMatch team) (fun a _ => hc a _ hpop) with ⟨perfs, hperfs⟩
        simp only [calculateCarryAdjustmentE, if_neg hsmall, if_neg hempty, hperfs]
        split
        · exact ⟨0, rfl⟩
        · exact ⟨_, rfl⟩
  · intro hmates
    by_cases hsmall : team.length < 2
    · simp [calculateCarryAdjustmentE, if_pos hsmall]
    · simp [calculateCarryAdjustmentE, if_neg hsmall, hmates]

/-- C8 witness: a contract-honouring evaluator on a 2-player team yields a
successful (zero, here) adjustment. -/
theorem calculateCarryAdjustmentE_ok_of_contract_witness :
    (∀ t pop, pop ≠ ([] : List MatchDetail) →
      ∃ q, (fun (_ : MatchDetail) (pop : List MatchDetail) =>
        if pop.isEmpty then (.error PerfError.insufficientData : Except PerfError PlayerPerformance)
        else .ok { score := 1 }) t pop = .ok q) ∧
      ∃ z, calculateCarryAdjustmentE
        (fun _ pop => if pop.isEmpty then .error PerfError.insufficientData else .ok { score := 1 })
        mdA [mdA, mdB] { score := 1 } false = .ok z := by
  have hc : ∀ t pop, pop ≠ ([] : List MatchDetail) →
      ∃ q, (fun (_ : MatchDetail) (pop : List MatchDetail) =>
        if pop.isEmpty then (.error PerfError.insufficientData : Except PerfError PlayerPerformance)
        else .ok { score := 1 }) t pop = .ok q := by
    intro t pop hpop
    refine ⟨{ score := 1 }, ?_⟩
    simp [List.isEmpty_iff, hpop]
  exact ⟨hc, (calculateCarryAdjustmentE_ok_of_contract _ mdA [mdA, mdB] { score := 1 } false hc).1⟩

/-- `AGMMRCalculator.calculateTeamSkill` (src/src/main.ts:317-320): average
mu of a roster (the empty-roster division never occurs in a well-formed
match; there JavaScript would produce NaN where this embedding yields 0). -/
def calculateTeamSkill (ratings : List Rating) : ℚ :=
  (ratings.map Rating.mu).sum / (ratings.length : ℚ)

/-- `AGMMRCalculator.getOrCreatePlayerRating` (src/src/main.ts:397-408):
return the cached rating, creating it from the skill proxy of the player's
first match when absent. -/
def getOrCreatePlayerRating (E : Externals) (st : Store) (steamID : String)
    (matchDetail : MatchDetail) : Rating × Store :=
  match Store.get? st steamID with
  | some r => (r, st)
  | none =>
    let skillProxy := E.calculateSkillProxy matchDetail
    let initialRating := E.calculateInitialRating skillProxy
    (initialRating, Store.set st steamID initialRating)

/-- The `team.map(getOrCreatePlayerRating)` calls of processMatch
(src/src/main.ts:84-89), with the cache mutations threaded left to right. -/
def getTeamRatings (E : Externals) : Store → List MatchDetail → List Rating × Store
  | st, [] => ([], st)
  | st, md :: rest =>
    let head := getOrCreatePlayerRating E st md.player.steamID md
    let tail := getTeamRatings E head.2 rest
    (head.1 :: tail.1, tail.2)

/-- The `playerPerformances` map of processMatch (src/src/main.ts:102-106):
for each participant, the evaluator is run against the full match roster and
the result keyed by steamID (later bindings shadow earlier ones, like
`Map.set`). -/
def buildPerfMap (E : Externals) (matchDetails : List MatchDetail) :
    List (String × PlayerPerformance) :=
  matchDetails.foldl
    (fun m p => (p.player.steamID, E.calculateIndividualPerformance p matchDetails) :: m) []

/-- `playerPerformances.get(steamId)!` (src/src/main.ts:139): the non-null
assertion is modelled with a default that is unreachable whenever the team
rosters are drawn from the match roster that built the map. -/
def lookupPerf (perfMap : List (String × PlayerPerformance)) (steamID : String) :
    PlayerPerformance :=
  ((perfMap.find? (fun p => p.1 == steamID)).map (fun p => p.2)).getD { score := 0 }

/-- The `isWinner` boolean of processMatch (src/src/main.ts:133-135). -/
def winBool (winner : Winner) (teamIdx : Nat) : Bool :=
  decide ((winner = Winner.blue ∧ teamIdx = 0) ∨ (winner = Winner.red ∧ teamIdx = 1))

/-- `previousMatchDetail?.mmrAfterMatch ?? 0` (src/src/main.ts:132): an
absent key (outer `none`, the Record has no entry) and an explicit `null`
(inner `none`) both yield 0. -/
def previousMMRof (prev : String → Option (Option MatchDetail)) (md : MatchDetail) : ℤ :=
  match prev md.player.steamID with
  | some (some d) => d.mmrAfterMatch
  | _ => 0

/-- The per-player body of processMatch's MMR loop (src/src/main.ts:127-199).
`prev steamId = some none` is the source's `previousMatchDetail === null`
(note an absent key is `undefined`, which is NOT `=== null`, so it takes the
established branch with previous MMR 0).  In the established branch the
source reads `newRating.mu` from `newRatings[teamIdx]?.[idx]`; when that
entry is absent JavaScript throws, modelled as `none`. -/
def processMatchPlayer (E : Externals) (prev : String → Option (Option MatchDetail))
    (winner : Winner) (teamIdx : Nat) (blueAvgSkill redAvgSkill skillDifference : ℚ)
    (perfMap : List (String × PlayerPerformance)) (team : List MatchDetail)
    (oldRating : Rating) (newRatingOpt : Option Rating) (md : MatchDetail) :
    Option MatchDetail :=
  let steamId := md.player.steamID
  let previousMMR := previousMMRof prev md
  let isWin := winBool winner teamIdx
  let performance := lookupPerf perfMap steamId
  if prev steamId = some none then
    let mmrAfterMatch := E.calculateInitialMMR newRatingOpt performance
    some { md with mmrAfterMatch := mmrAfterMatch, mmrDelta := mmrAfterMatch }
  else
    match newRatingOpt with
    | none => none
    | some newRating =>
      let baseMMRChange := convertRatingChangeToMMR oldRating newRating
      let performanceAdjustment := E.calculatePerformanceAdjustment performance isWin team.length
      let balanceFactor := calculateBalanceFactor skillDifference isWin
        (if teamIdx = 0 then blueAvgSkill else redAvgSkill)
        (if teamIdx = 0 then redAvgSkill else blueAvgSkill)
      let carryAdjustment := calculateCarryAdjustment E md team performance isWin
      let mmrDelta := clampMMRDelta
        (jsRound ((baseMMRChange + performanceAdjustment + (carryAdjustment : ℚ)) * balanceFactor))
        isWin
      some { md with mmrAfterMatch := max 0 (previousMMR + mmrDelta), mmrDelta := mmrDelta }

/-- `team.forEach((match, idx) => ...)` over a body that can throw: a throw
at any player aborts the loop (and processMatch) with no result list. -/
def processTeamAux (f : Nat → MatchDetail → Option MatchDetail) :
    Nat → List MatchDetail → Option (List MatchDetail)
  | _, [] => some []
  | i, md :: rest =>
    match f i md, processTeamAux f (i + 1) rest with
    | some md', some rest' => some (md' :: rest')
    | _, _ => none

/-- One team's pass of processMatch's MMR loop (src/src/main.ts:127-200):
`oldRating` is `blueRatings[idx]`/`redRatings[idx]` and the updated rating is
`newRatings[teamIdx]?.[idx]`. -/
def processTeam (E : Externals) (prev : String → Option (Option MatchDetail))
    (winner : Winner) (teamIdx : Nat) (blueAvgSkill redAvgSkill skillDifference : ℚ)
    (perfMap : List (String × PlayerPerformance)) (ratings : List Rating)
    (newTeamRatings : Option (List Rating)) (team : List MatchDetail) :
    Option (List MatchDetail) :=
  processTeamAux
    (fun idx md =>
      processMatchPlayer E prev winner teamIdx blueAvgSkill redAvgSkill skillDifference
        perfMap team (ratings.getD idx (rating 0 0)) ((newTeamRatings.getD []).get? idx) md)
    0 team

/-- Pair each roster slot with `newRatings[teamIdx]?.[idx]`: positions past
the end of the updated-ratings sequence get `none` (JavaScript
`undefined`). -/
def zipUpdated : List MatchDetail → List Rating → List (MatchDetail × Option Rating)
  | [], _ => []
  | md :: rest, [] => (md, none) :: zipUpdated rest []
  | md :: rest, r :: rs => (md, some r) :: zipUpdated rest rs

/-- The write-back loop body (src/src/main.ts:116-124): `if (newRating)`
guards the cache update, so a missing updated rating skips the `set` and the
loop continues with the next player. -/
def writeBackAux : Store → List (MatchDetail × Option Rating) → Store
  | st, [] => st
  | st, (md, some r) :: rest => writeBackAux (Store.set st md.player.steamID r) rest
  | st, (_, none) :: rest => writeBackAux st rest

/-- One team's pass of the write-back loop (src/src/main.ts:116-124).  An
absent `newRatings[teamIdx]` behaves like an empty sequence: every lookup
`?.[idx]` is `undefined`. -/
def writeBackTeam (st : Store) (team : List MatchDetail) (updated : Option (List Rating)) : Store :=
  writeBackAux st (zipUpdated team (updated.getD []))

/-- `blueTeam` from `organizeTeams(matchDetails)` (src/src/main.ts:80). -/
def blueTeamOf (E : Externals) (matchDetails : List MatchDetail) : List MatchDetail :=
  (E.organizeTeams matchDetails).1

/-- `redTeam` from `organizeTeams(matchDetails)` (src/src/main.ts:80). -/
def redTeamOf (E : Externals) (matchDetails : List MatchDetail) : List MatchDetail :=
  (E.organizeTeams matchDetails).2

/-- `blueRatings` (src/src/main.ts:84-86). -/
def blueRatingsOf (E : Externals) (st : Store) (matchDetails : List MatchDetail) : List Rating :=
  (getTeamRatings E st (blueTeamOf E matchDetails)).1

/-- The cache after the blue-team lookups (mutations of
`getOrCreatePlayerRating` happen during the map). -/
def storeAfterBlueOf (E : Externals) (st : Store) (matchDetails : List MatchDetail) : Store :=
  (getTeamRatings E st (blueTeamOf E matchDetails)).2

/-- `redRatings` (src/src/main.ts:87-89). -/
def redRatingsOf (E : Externals) (st : Store) (matchDetails : List MatchDetail) : List Rating :=
  (getTeamRatings E (storeAfterBlueOf E st matchDetails) (redTeamOf E matchDetails)).1

/-- The cache after both teams' lookups. -/
def storeAfterRatingsOf (E : Externals) (st : Store) (matchDetails : List MatchDetail) : Store :=
  (getTeamRatings E (storeAfterBlueOf E st matchDetails) (redTeamOf E matchDetails)).2

/-- `winner = determineWinner(blueTeam, redTeam)` (src/src/main.ts:98). -/
def matchWinner (E : Externals) (matchDetails : List MatchDetail) : Winner :=
  E.determineWinner (blueTeamOf E matchDetails) (redTeamOf E matchDetails)

/-- `skillDifference = |blueAvgSkill − redAvgSkill|` (src/src/main.ts:93-95). -/
def skillDifferenceOf (E : Externals) (st : Store) (matchDetails : List MatchDetail) : ℚ :=
  |calculateTeamSkill (blueRatingsOf E st matchDetails)
    - calculateTeamSkill (redRatingsOf E st matchDetails)|

/-- `newRatings = rate([blueRatings, redRatings], {rank})` with rank `[1,2]`
on a blue win and `[2,1]` otherwise (src/src/main.ts:110-113). -/
def newRatingsOf (E : Externals) (st : Store) (matchDetails : List MatchDetail) :
    List (List Rating) :=
  E.rate [blueRatingsOf E st matchDetails, redRatingsOf E st matchDetails]
    (if matchWinner E matchDetails = Winner.blue then [1, 2] else [2, 1])

/-- The cache after the write-back loop over `[blueTeam, redTeam]`
(src/src/main.ts:116-124). -/
def storeAfterWriteBackOf (E : Externals) (st : Store) (matchDetails : List MatchDetail) : Store :=
  writeBackTeam
    (writeBackTeam (storeAfterRatingsOf E st matchDetails) (blueTeamOf E matchDetails)
      ((newRatingsOf E st matchDetails).get? 0))
    (redTeamOf E matchDetails) ((newRatingsOf E st matchDetails).get? 1)

/-- Blue side of the MMR loop (src/src/main.ts:127-200, teamIdx 0). -/
def blueOutOf (E : Externals) (st : Store) (matchDetails : List MatchDetail)
    (prev : String → Option (Option MatchDetail)) : Option (List MatchDetail) :=
  processTeam E prev (matchWinner E matchDetails) 0
    (calculateTeamSkill (blueRatingsOf E st matchDetails))
    (calculateTeamSkill (redRatingsOf E st matchDetails))
    (skillDifferenceOf E st matchDetails) (buildPerfMap E matchDetails)
    (blueRatingsOf E st matchDetails) ((newRatingsOf E st matchDetails).get? 0)
    (blueTeamOf E matchDetails)

/-- Red side of the MMR loop (src/src/main.ts:127-200, teamIdx 1). -/
def redOutOf (E : Externals) (st : Store) (matchDetails : List MatchDetail)
    (prev : String → Option (Option MatchDetail)) : Option (List MatchDetail) :=
  processTeam E prev (matchWinner E matchDetails) 1
    (calculateTeamSkill (blueRatingsOf E st matchDetails))
    (calculateTeamSkill (redRatingsOf E st matchDetails))
    (skillDifferenceOf E st matchDetails) (buildPerfMap E matchDetails)
    (redRatingsOf E st matchDetails) ((newRatingsOf E st matchDetails).get? 1)
    (redTeamOf E matchDetails)

/-- The outcome of one `processMatch` call: the rating cache (the write-back
happens before the MMR loop, so its mutations persist even if the MMR loop
throws) and, when no exception is thrown, the two annotated rosters. -/
structure ProcessOutcome where
  store : Store
  result : Option (List MatchDetail × List MatchDetail)

/-- `AGMMRCalculator.processMatch` (src/src/main.ts:75-203), assembled from
the stage definitions above in the source's order: organize teams, look up /
create ratings (blue then red), compute team skills and the winner, score
every participant, call the oracle, write back the updated ratings, then run
the MMR loop over both teams. -/
def processMatch (E : Externals) (st : Store) (matchDetails : List MatchDetail)
    (previousMatchDetails : String → Option (Option MatchDetail)) : ProcessOutcome :=
  { store := storeAfterWriteBackOf E st matchDetails
  , result :=
      match blueOutOf E st matchDetails previousMatchDetails,
          redOutOf E st matchDetails previousMatchDetails with
      | some blueOut, some redOut => some (blueOut, redOut)
      | _, _ => none }

theorem processMatch_result_eq (E : Externals) (st : Store) (matchDetails : List MatchDetail)
    (prev : String → Option (Option MatchDetail)) (b r : List MatchDetail)
    (h : (processMatch E st matchDetails prev).result = some (b, r)) :
    blueOutOf E st matchDetails prev = some b ∧ redOutOf E st matchDetails prev = some r := by
  cases hb : blueOutOf E st matchDetails prev with
  | none => simp [processMatch, hb] at h
  | some b0 =>
    cases hr : redOutOf E st matchDetails prev with
    | none => simp [processMatch, hb, hr] at h
    | some r0 =>
      simp only [processMatch, hb, hr, Option.some.injEq, Prod.mk.injEq] at h
      exact ⟨by rw [h.1], by rw [h.2]⟩

theorem processTeamAux_mem (f : Nat → MatchDetail → Option MatchDetail)
    (i : Nat) (l out : List MatchDetail) (md' : MatchDetail)
    (h : processTeamAux f i l = some out) (hm : md' ∈ out) :
    ∃ j md, md ∈ l ∧ f j md = some md' := by
  induction l generalizing i out with
  | nil =>
    simp only [processTeamAux, Option.some.injEq] at h
    subst h
    simp at hm
  | cons a as ih =>
    simp only [processTeamAux] at h
    cases ha : f i a with
    | none => simp [ha] at h
    | some a' =>
      cases has : processTeamAux f (i + 1) as with
      | none => simp [ha, has] at h
      | some as' =>
        simp only [ha, has, Option.some.injEq] at h
        subst h
        rcases List.mem_cons.mp hm with hE | hE
        · exact ⟨i, a, List.mem_cons_self _ _, by rw [ha, hE]⟩
        · rcases ih (i + 1) as' has hE with ⟨j, md, hmd, hf⟩
          exact ⟨j, md, List.mem_cons_of_mem _ hmd, hf⟩

/-- What one successful player step guarantees: the player identity is
preserved; a first-match player gets the placement value in both fields; an
established player gets a clamped delta and the zero-floored total. -/
theorem processMatchPlayer_some_spec (E : Externals)
    (prev : String → Option (Option MatchDetail)) (winner : Winner) (teamIdx : Nat)
    (blueAvgSkill redAvgSkill skillDifference : ℚ)
    (perfMap : List (String × PlayerPerformance)) (team : List MatchDetail)
    (oldRating : Rating) (newRatingOpt : Option Rating) (md out : MatchDetail)
    (h : processMatchPlayer E prev winner teamIdx blueAvgSkill redAvgSkill skillDifference
        perfMap team oldRating newRatingOpt md = some out) :
    out.player = md.player ∧
    (prev md.player.steamID = some none →
      out.mmrDelta = E.calculateInitialMMR newRatingOpt (lookupPerf perfMap md.player.steamID) ∧
      out.mmrAfterMatch = out.mmrDelta) ∧
    (prev md.player.steamID ≠ some none →
      ∃ raw, out.mmrDelta = clampMMRDelta raw (winBool winner teamIdx) ∧
        out.mmrAfterMatch = max 0 (previousMMRof prev md + out.mmrDelta)) := by
  by_cases hF : prev md.player.steamID = some none
  · simp only [processMatchPlayer, hF, if_true, Option.some.injEq] at h
    subst h
    exact ⟨rfl, fun _ => ⟨rfl, rfl⟩, fun hc => absurd hF hc⟩
  · simp only [processMatchPlayer, hF, if_false] at h
    cases hn : newRatingOpt with
    | none =>
      rw [hn] at h
      simp at h
    | some newRating =>
      rw [hn] at h
      simp only [Option.some.injEq] at h
      subst h
      refine ⟨rfl, fun hc => absurd hc hF, fun _ => ⟨_, rfl, rfl⟩⟩

theorem previousMMRof_congr (prev : String → Option (Option MatchDetail)) (md md' : MatchDetail)
    (h : md'.player = md.player) : previousMMRof prev md' = previousMMRof prev md := by
  unfold previousMMRof
  rw [h]

/-- Every record in a successful team pass comes from one input record with
the same player, and carries either the placement value (first match) or a
clamped delta with the zero-floored total (established). -/
theorem processTeam_mem_spec (E : Externals) (prev : String → Option (Option MatchDetail))
    (winner : Winner) (teamIdx : Nat) (blueAvgSkill redAvgSkill skillDifference : ℚ)
    (perfMap : List (String × PlayerPerformance)) (ratings : List Rating)
    (newTeamRatings : Option (List Rating)) (team out : List MatchDetail) (md' : MatchDetail)
    (h : processTeam E prev winner teamIdx blueAvgSkill redAvgSkill skillDifference
        perfMap ratings newTeamRatings team = some out)
    (hmem : md' ∈ out) :
    ∃ md, md'.player = md.player ∧
      (prev md.player.steamID = some none →
        ∃ ro, md'.mmrDelta = E.calculateInitialMMR ro (lookupPerf perfMap md.player.steamID) ∧
          md'.mmrAfterMatch = md'.mmrDelta) ∧
      (prev md.player.steamID ≠ some none →
        ∃ raw, md'.mmrDelta = clampMMRDelta raw (winBool winner teamIdx) ∧
          md'.mmrAfterMatch = max 0 (previousMMRof prev md + md'.mmrDelta)) := by
  rcases processTeamAux_mem _ 0 team out md' h hmem with ⟨j, md, hmd, hf⟩
  have hspec := processMatchPlayer_some_spec E prev winner teamIdx blueAvgSkill redAvgSkill
    skillDifference perfMap team (ratings.getD j (rating 0 0))
    ((newTeamRatings.getD []).get? j) md md' hf
  obtain ⟨hpl, hfirst, hestp⟩ := hspec
  refine ⟨md, hpl, fun hF => ?_, fun hE => ?_⟩
  · obtain ⟨h1, h2⟩ := hfirst hF
    exact ⟨_, h1, h2⟩
  · exact hestp hE

/-- C2: every established player processed by processMatch ends with a
mmrDelta inside [2, 40] when that player's team won and inside [−40, −2]
when it lost — never zero, never out of bounds. -/
theorem processMatch_established_mmrDelta_bounds (E : Externals) (st : Store)
    (matchDetails : List MatchDetail) (prev : String → Option (Option MatchDetail))
    (b r : List MatchDetail) (md' : MatchDetail)
    (h : (processMatch E st matchDetails prev).result = some (b, r))
    (hest : prev md'.player.steamID ≠ some none) :
    (md' ∈ b →
      (matchWinner E matchDetails = Winner.blue → 2 ≤ md'.mmrDelta ∧ md'.mmrDelta ≤ 40) ∧
      (matchWinner E matchDetails = Winner.red → -40 ≤ md'.mmrDelta ∧ md'.mmrDelta ≤ -2) ∧
      md'.mmrDelta ≠ 0) ∧
    (md' ∈ r →
      (matchWinner E matchDetails = Winner.red → 2 ≤ md'.mmrDelta ∧ md'.mmrDelta ≤ 40) ∧
      (matchWinner E matchDetails = Winner.blue → -40 ≤ md'.mmrDelta ∧ md'.mmrDelta ≤ -2) ∧
      md'.mmrDelta ≠ 0) := by
  obtain ⟨hb, hr⟩ := processMatch_result_eq E st matchDetails prev b r h
  constructor
  · intro hmem
    rcases processTeam_mem_spec E prev (matchWinner E matchDetails) 0 _ _ _ _ _ _ _ b md'
      hb hmem with ⟨md, hpl, -, hestp⟩
    rw [hpl] at hest
    obtain ⟨raw, hdelta, -⟩ := hestp hest
    refine ⟨fun hw => ?_, fun hw => ?_, ?_⟩
    · have hwb : winBool (matchWinner E matchDetails) 0 = true := by rw [hw]; rfl
      rw [hdelta, hwb]
      exact (clampMMRDelta_bounds raw true).1 rfl
    · have hwb : winBool (matchWinner E matchDetails) 0 = false := by rw [hw]; rfl
      rw [hdelta, hwb]
      exact (clampMMRDelta_bounds raw false).2.1 rfl
    · rw [hdelta]
      exact (clampMMRDelta_bounds raw _).2.2
  · intro hmem
    rcases processTeam_mem_spec E prev (matchWinner E matchDetails) 1 _ _ _ _ _ _ _ r md'
      hr hmem with ⟨md, hpl, -, hestp⟩
    rw [hpl] at hest
    obtain ⟨raw, hdelta, -⟩ := hestp hest
    refine ⟨fun hw => ?_, fun hw => ?_, ?_⟩
    · have hwb : winBool (matchWinner E matchDetails) 1 = true := by rw [hw]; rfl
      rw [hdelta, hwb]
      exact (clampMMRDelta_bounds raw true).1 rfl
    · have hwb : winBool (matchWinner E matchDetails) 1 = false := by rw [hw]; rfl
      rw [hdelta, hwb]
      exact (clampMMRDelta_bounds raw false).2.1 rfl
    · rw [hdelta]
      exact (clampMMRDelta_bounds raw _).2.2

/-- C3: every player written by processMatch has a non-negative
mmrAfterMatch (for first-match players under the spec's contract that the
placement MMR is non-negative); for established players the total is exactly
`max 0 (previousMMR + mmrDelta)` where the reported mmrDelta is the raw
clamped delta — it is not re-derived from the zero floor. -/
theorem processMatch_mmrAfterMatch_nonneg (E : Externals) (st : Store)
    (matchDetails : List MatchDetail) (prev : String → Option (Option MatchDetail))
    (b r : List MatchDetail) (md' : MatchDetail)
    (hInit : ∀ ro p, 0 ≤ E.calculateInitialMMR ro p)
    (h : (processMatch E st matchDetails prev).result = some (b, r))
    (hmem : md' ∈ b ∨ md' ∈ r) :
    0 ≤ md'.mmrAfterMatch ∧
    (prev md'.player.steamID ≠ some none →
      md'.mmrAfterMatch = max 0 (previousMMRof prev md' + md'.mmrDelta) ∧
      ∃ raw w, md'.mmrDelta = clampMMRDelta raw w) := by
  obtain ⟨hb, hr⟩ := processMatch_result_eq E st matchDetails prev b r h
  have key : ∃ md, md'.player = md.player ∧
      (prev md.player.steamID = some none →
        ∃ ro, md'.mmrDelta = E.calculateInitialMMR ro (lookupPerf (buildPerfMap E matchDetails) md.player.steamID) ∧
          md'.mmrAfterMatch = md'.mmrDelta) ∧
      (prev md.player.steamID ≠ some none →
        ∃ raw w, md'.mmrDelta = clampMMRDelta raw w ∧
          md'.mmrAfterMatch = max 0 (previousMMRof prev md + md'.mmrDelta)) := by
    rcases hmem with hmem | hmem
    · rcases processTeam_mem_spec E prev (matchWinner E matchDetails) 0 _ _ _ _ _ _ _ b md'
        hb hmem with ⟨md, hpl, hfirst, hestp⟩
      exact ⟨md, hpl, hfirst, fun hE => by
        rcases hestp hE with ⟨raw, h1, h2⟩
        exact ⟨raw, _, h1, h2⟩⟩
    · rcases processTeam_mem_spec E prev (matchWinner E matchDetails) 1 _ _ _ _ _ _ _ r md'
        hr hmem with ⟨md, hpl, hfirst, hestp⟩
      exact ⟨md, hpl, hfirst, fun hE => by
        rcases hestp hE with ⟨raw, h1, h2⟩
        exact ⟨raw, _, h1, h2⟩⟩
  rcases key with ⟨md, hpl, hfirst, hestp⟩
  by_cases hF : prev md.player.steamID = some none
  · rcases hfirst hF with ⟨ro, h1, h2⟩
    refine ⟨?_, fun hE => ?_⟩
    · rw [h2, h1]
      exact hInit _ _
    · rw [hpl] at hE
      exact absurd hF hE
  · rcases hestp hF with ⟨raw, w, h1, h2⟩
    refine ⟨?_, fun _ => ?_⟩
    · rw [h2]
      exact le_max_left _ _
    · rw [previousMMRof_congr prev md md' hpl]
      exact ⟨h2, raw, w, h1⟩

/-- C4: a first-match player (`previousMatchDetail === null`) gets
`mmrDelta = mmrAfterMatch = calculateInitialMMR(newRating, performance)`,
and the result does not depend on the winner, the team index, the team
averages, the skill difference, the team roster or the old rating — i.e.
the base-change, performance, balance and carry adjustments play no part. -/
theorem processMatchPlayer_first_match_placement (E : Externals)
    (prev : String → Option (Option MatchDetail)) (winner winner' : Winner)
    (teamIdx teamIdx' : Nat) (blueAvgSkill blueAvgSkill' redAvgSkill redAvgSkill' : ℚ)
    (skillDifference skillDifference' : ℚ) (perfMap : List (String × PlayerPerformance))
    (team team' : List MatchDetail) (oldRating oldRating' : Rating)
    (newRatingOpt : Option Rating) (md : MatchDetail)
    (hFirst : prev md.player.steamID = some none) :
    processMatchPlayer E prev winner teamIdx blueAvgSkill redAvgSkill skillDifference
        perfMap team oldRating newRatingOpt md
      = some { md with
          mmrAfterMatch := E.calculateInitialMMR newRatingOpt (lookupPerf perfMap md.player.steamID),
          mmrDelta := E.calculateInitialMMR newRatingOpt (lookupPerf perfMap md.player.steamID) } ∧
    processMatchPlayer E prev winner teamIdx blueAvgSkill redAvgSkill skillDifference
        perfMap team oldRating newRatingOpt md
      = processMatchPlayer E prev winner' teamIdx' blueAvgSkill' redAvgSkill' skillDifference'
          perfMap team' oldRating' newRatingOpt md := by
  constructor <;> simp [processMatchPlayer, hFirst]

/-- C4 witness: with every player marked first-match, the placement value
(150 under `sampleExternals`) lands in both output fields, whatever the
surrounding match context is. -/
theorem processMatchPlayer_first_match_placement_witness :
    ((fun _ : String => some (none : Option MatchDetail)) mdA.player.steamID
        = some (none : Option MatchDetail)) ∧
      processMatchPlayer sampleExternals (fun _ => some none) Winner.blue 0 25 20 5 []
          [mdA, mdB] (rating 25 8) (some (rating 26 7)) mdA
        = some { mdA with mmrAfterMatch := 150, mmrDelta := 150 } := by
  refine ⟨rfl, ?_⟩
  have h := (processMatchPlayer_first_match_placement sampleExternals (fun _ => some none)
    Winner.blue Winner.red 0 1 25 0 20 0 5 0 [] [mdA, mdB] [] (rating 25 8) (rating 0 0)
    (some (rating 26 7)) mdA rfl).1
  rw [h]
  rfl

/-- Previous participation record for `playerA`, carrying 100 MMR. -/
def prevA : MatchDetail := { player := playerA, stats := 0, mmrAfterMatch := 100, mmrDelta := 0 }

/-- Previous participation record for `playerB`, carrying 0 MMR. -/
def prevB : MatchDetail := { player := playerB, stats := 0, mmrAfterMatch := 0, mmrDelta := 0 }

/-- Concrete previous-record map: both fixture players are established. -/
def prev0 : String → Option (Option MatchDetail) := fun s =>
  if s = "a" then some (some prevA) else if s = "b" then some (some prevB) else none

/-- Expected annotated record for `playerA` in the sample match. -/
def mdAOut : MatchDetail := { player := playerA, stats := 0, mmrAfterMatch := 102, mmrDelta := 2 }

/-- Expected annotated record for `playerB` in the sample match. -/
def mdBOut : MatchDetail := { player := playerB, stats := 0, mmrAfterMatch := 0, mmrDelta := -2 }

set_option maxHeartbeats 2000000 in
/-- Concrete run of the whole pipeline on the two fixture players: blue wins,
both established; blue's raw delta 0 is floored up to +2 (total 102), red's
raw delta 0 is capped down to −2, and red's total is floored at 0. -/
theorem processMatch_sample_result :
    (processMatch sampleExternals Store.empty [mdA, mdB] prev0).result
      = some ([mdAOut], [mdBOut]) := by
  norm_num [processMatch, blueOutOf, redOutOf, processTeam, processTeamAux, processMatchPlayer,
    blueTeamOf, redTeamOf, blueRatingsOf, redRatingsOf, storeAfterBlueOf, storeAfterRatingsOf,
    getTeamRatings, getOrCreatePlayerRating, Store.get?, Store.set, Store.empty, matchWinner,
    skillDifferenceOf, calculateTeamSkill, newRatingsOf, buildPerfMap, lookupPerf, previousMMRof,
    winBool, convertRatingChangeToMMR, calculateBalanceFactor, calculateCarryAdjustment,
    clampMMRDelta, jsRound, sampleExternals, mdA, mdB, mdAOut, mdBOut, playerA, playerB, prev0,
    prevA, prevB, rating, List.find?]
  simp

/-- C2 witness: in the sample match the established red player (raw delta 0,
a loss) ends with the clamped delta −2 ∈ [−40, −2]. -/
theorem processMatch_established_mmrDelta_bounds_witness :
    ((processMatch sampleExternals Store.empty [mdA, mdB] prev0).result
        = some ([mdAOut], [mdBOut]) ∧ prev0 mdBOut.player.steamID ≠ some none) ∧
      (-40 ≤ mdBOut.mmrDelta ∧ mdBOut.mmrDelta ≤ -2) ∧ mdBOut.mmrDelta ≠ 0 := by
  refine ⟨⟨processMatch_sample_result, by decide⟩, ?_, ?_⟩
  all_goals
    have h := (processMatch_established_mmrDelta_bounds sampleExternals Store.empty [mdA, mdB]
      prev0 [mdAOut] [mdBOut] mdBOut processMatch_sample_result (by decide)).2 (by simp)
  · exact h.2.1 rfl
  · exact h.2.2

/-- C3 witness: the established red player has previous MMR 0 and delta −2,
so `previousMMR + mmrDelta < 0`; the total is floored at 0 while the
reported delta stays −2. -/
theorem processMatch_mmrAfterMatch_nonneg_witness :
    ((∀ ro p, 0 ≤ sampleExternals.calculateInitialMMR ro p) ∧
        previousMMRof prev0 mdBOut + mdBOut.mmrDelta < 0) ∧
      0 ≤ mdBOut.mmrAfterMatch ∧
      mdBOut.mmrAfterMatch = max 0 (previousMMRof prev0 mdBOut + mdBOut.mmrDelta) := by
  have hInit : ∀ (ro : Option Rating) (p : PlayerPerformance),
      0 ≤ sampleExternals.calculateInitialMMR ro p := fun _ _ => by norm_num [sampleExternals]
  have h := processMatch_mmrAfterMatch_nonneg sampleExternals Store.empty [mdA, mdB] prev0
    [mdAOut] [mdBOut] mdBOut hInit processMatch_sample_result (Or.inr (by simp))
  exact ⟨⟨hInit, by decide⟩, h.1, (h.2 (by decide)).1⟩

/-- The steamIDs actually written by one write-back pass: those paired with
a present updated rating. -/
def writtenIDs (pairs : List (MatchDetail × Option Rating)) : List String :=
  pairs.filterMap (fun p => p.2.map (fun _ => p.1.player.steamID))

theorem writtenIDs_subset (pairs : List (MatchDetail × Option Rating)) (sid : String)
    (h : sid ∈ writtenIDs pairs) : sid ∈ pairs.map (fun p => p.1.player.steamID) := by
  rcases List.mem_filterMap.mp h with ⟨⟨md, ro⟩, hmem, hf⟩
  cases ro with
  | none => simp at hf
  | some r =>
    simp only [Option.map_some', Option.some.injEq] at hf
    exact List.mem_map.mpr ⟨_, hmem, hf⟩

theorem writeBackAux_get?_not_mem (pairs : List (MatchDetail × Option Rating)) (st : Store)
    (sid : String) (h : sid ∉ writtenIDs pairs) :
    Store.get? (writeBackAux st pairs) sid = Store.get? st sid := by
  induction pairs generalizing st with
  | nil => rfl
  | cons p rest ih =>
    obtain ⟨md, ro⟩ := p
    cases ro with
    | none =>
      have h' : sid ∉ writtenIDs rest := by
        simpa [writtenIDs, List.filterMap_cons] using h
      simpa [writeBackAux] using ih _ h'
    | some r =>
      have hsplit : sid ≠ md.player.steamID ∧ sid ∉ writtenIDs rest := by
        constructor
        · intro he
          exact h (by simp [writtenIDs, List.filterMap_cons, he])
        · intro hm
          exact h (by simp only [writtenIDs, List.filterMap_cons, Option.map_some']
                      exact List.mem_cons_of_mem _ hm)
      calc Store.get? (writeBackAux st ((md, some r) :: rest)) sid
          = Store.get? (writeBackAux (Store.set st md.player.steamID r) rest) sid := by
            simp [writeBackAux]
        _ = Store.get? (Store.set st md.player.steamID r) sid := ih _ hsplit.2
        _ = Store.get? st sid := Store.get?_set_ne _ _ _ _ hsplit.1

theorem writeBackAux_get?_written (pairs : List (MatchDetail × Option Rating)) (st : Store)
    (i : Nat) (md : MatchDetail) (r : Rating)
    (hi : pairs.get? i = some (md, some r))
    (hnd : (pairs.map (fun p => p.1.player.steamID)).Nodup) :
    Store.get? (writeBackAux st pairs) md.player.steamID = some r := by
  induction pairs generalizing st i with
  | nil => simp at hi
  | cons p rest ih =>
    rw [List.map_cons] at hnd
    obtain ⟨hnd1, hnd2⟩ := List.nodup_cons.mp hnd
    cases i with
    | zero =>
      simp only [List.get?_cons_zero, Option.some.injEq] at hi
      subst hi
      have hnot : md.player.steamID ∉ writtenIDs rest := by
        intro hm
        exact hnd1 (writtenIDs_subset rest _ hm)
      calc Store.get? (writeBackAux st ((md, some r) :: rest)) md.player.steamID
          = Store.get? (writeBackAux (Store.set st md.player.steamID r) rest)
              md.player.steamID := by simp [writeBackAux]
        _ = Store.get? (Store.set st md.player.steamID r) md.player.steamID :=
            writeBackAux_get?_not_mem rest _ _ hnot
        _ = some r := Store.get?_set_self _ _ _
    | succ j =>
      simp only [List.get?_cons_succ] at hi
      obtain ⟨mdp, rop⟩ := p
      cases rop with
      | none => simpa [writeBackAux] using ih _ j hi hnd2
      | some rp => simpa [writeBackAux] using ih _ j hi hnd2

theorem zipUpdated_map_fst (team : List MatchDetail) (us : List Rating) :
    (zipUpdated team us).map Prod.fst = team := by
  induction team generalizing us with
  | nil => cases us <;> rfl
  | cons md rest ih => cases us <;> simp [zipUpdated, ih]

theorem zipUpdated_get? (team : List MatchDetail) (us : List Rating) (i : Nat) (md : MatchDetail)
    (h : team.get? i = some md) :
    (zipUpdated team us).get? i = some (md, us.get? i) := by
  induction team generalizing us i with
  | nil => simp at h
  | cons a rest ih =>
    cases i with
    | zero =>
      simp only [List.get?_cons_zero, Option.some.injEq] at h
      subst h
      cases us <;> rfl
    | succ j =>
      simp only [List.get?_cons_succ] at h
      cases us with
      | nil =>
        have := ih [] j h
        simpa [zipUpdated] using this
      | cons u us' =>
        have := ih us' j h
        simpa [zipUpdated] using this

theorem zipUpdated_ids (team : List MatchDetail) (us : List Rating) :
    (zipUpdated team us).map (fun p => p.1.player.steamID)
      = team.map (fun m => m.player.steamID) := by
  rw [show (fun p : MatchDetail × Option Rating => p.1.player.steamID)
      = (fun m : MatchDetail => m.player.steamID) ∘ Prod.fst from rfl]
  rw [← List.map_map, zipUpdated_map_fst]

theorem writtenIDs_zipUpdated_not_mem (team : List MatchDetail) (us : List Rating) (i : Nat)
    (md : MatchDetail) (hi : team.get? i = some md) (hui : us.get? i = none)
    (hnd : (team.map (fun m => m.player.steamID)).Nodup) :
    md.player.steamID ∉ writtenIDs (zipUpdated team us) := by
  induction team generalizing us i with
  | nil => simp at hi
  | cons a rest ih =>
    rw [List.map_cons] at hnd
    obtain ⟨hnd1, hnd2⟩ := List.nodup_cons.mp hnd
    cases i with
    | zero =>
      simp only [List.get?_cons_zero, Option.some.injEq] at hi
      cases us with
      | nil =>
        intro hm
        rw [← hi] at hm
        have hm' : a.player.steamID ∈ writtenIDs (zipUpdated rest []) := by
          simpa [zipUpdated, writtenIDs, List.filterMap_cons] using hm
        have hmm : a.player.steamID ∈ (zipUpdated rest []).map (fun p => p.1.player.steamID) :=
          writtenIDs_subset _ _ hm'
        rw [zipUpdated_ids] at hmm
        exact hnd1 hmm
      | cons u us' => simp at hui
    | succ j =>
      simp only [List.get?_cons_succ] at hi
      have hmem : md ∈ rest := List.get?_mem hi
      have hne : md.player.steamID ≠ a.player.steamID := by
        intro he
        exact hnd1 (he ▸ List.mem_map.mpr ⟨md, hmem, rfl⟩)
      cases us with
      | nil =>
        intro hm
        have hm' : md.player.steamID ∈ writtenIDs (zipUpdated rest []) := by
          simpa [zipUpdated, writtenIDs, List.filterMap_cons] using hm
        exact ih [] j hi (by simp) hnd2 hm'
      | cons u us' =>
        intro hm
        simp only [zipUpdated, writtenIDs, List.filterMap_cons, Option.map_some'] at hm
        rcases List.mem_cons.mp hm with hm | hm
        · exact hne hm
        · exact ih us' j hi (by simpa using hui) hnd2 (by simpa [writtenIDs] using hm)

theorem writeBack_two_team_spec (st1 : Store) (blueTeam redTeam : List MatchDetail)
    (newRatings : List (List Rating))
    (hnd : ((blueTeam ++ redTeam).map (fun m => m.player.steamID)).Nodup) :
    (∀ i md, blueTeam.get? i = some md →
        (((newRatings.get? 0).getD []).get? i = none) →
        Store.get? (writeBackTeam (writeBackTeam st1 blueTeam (newRatings.get? 0)) redTeam
            (newRatings.get? 1)) md.player.steamID
          = Store.get? st1 md.player.steamID) ∧
    (∀ i md r, blueTeam.get? i = some md →
        (((newRatings.get? 0).getD []).get? i = some r) →
        Store.get? (writeBackTeam (writeBackTeam st1 blueTeam (newRatings.get? 0)) redTeam
            (newRatings.get? 1)) md.player.steamID = some r) ∧
    (∀ i md, redTeam.get? i = some md →
        (((newRatings.get? 1).getD []).get? i = none) →
        Store.get? (writeBackTeam (writeBackTeam st1 blueTeam (newRatings.get? 0)) redTeam
            (newRatings.get? 1)) md.player.steamID
          = Store.get? st1 md.player.steamID) ∧
    (∀ i md r, redTeam.get? i = some md →
        (((newRatings.get? 1).getD []).get? i = some r) →
        Store.get? (writeBackTeam (writeBackTeam st1 blueTeam (newRatings.get? 0)) redTeam
            (newRatings.get? 1)) md.player.steamID = some r) := by
  rw [List.map_append] at hnd
  rw [List.nodup_append] at hnd
  obtain ⟨hndb, hndr, hdisj⟩ := hnd
  have hblue_sub : ∀ sid, sid ∈ writtenIDs (zipUpdated blueTeam ((newRatings.get? 0).getD []))
      → sid ∈ blueTeam.map (fun m => m.player.steamID) := by
    intro sid h
    have := writtenIDs_subset _ _ h
    rwa [zipUpdated_ids] at this
  have hred_sub : ∀ sid, sid ∈ writtenIDs (zipUpdated redTeam ((newRatings.get? 1).getD []))
      → sid ∈ redTeam.map (fun m => m.player.steamID) := by
    intro sid h
    have := writtenIDs_subset _ _ h
    rwa [zipUpdated_ids] at this
  refine ⟨fun i md hi hmiss => ?_, fun i md r hi hpres => ?_,
    fun i md hi hmiss => ?_, fun i md r hi hpres => ?_⟩
  · have hmemb : md.player.steamID ∈ blueTeam.map (fun m => m.player.steamID) :=
      List.mem_map.mpr ⟨md, List.get?_mem hi, rfl⟩
    have hnotred : md.player.steamID ∉ writtenIDs (zipUpdated redTeam ((newRatings.get? 1).getD [])) :=
      fun hm => hdisj hmemb (hred_sub _ hm)
    have hnotblue : md.player.steamID ∉ writtenIDs (zipUpdated blueTeam ((newRatings.get? 0).getD [])) :=
      writtenIDs_zipUpdated_not_mem _ _ i md hi hmiss hndb
    rw [writeBackTeam, writeBackAux_get?_not_mem _ _ _ hnotred,
      writeBackTeam, writeBackAux_get?_not_mem _ _ _ hnotblue]
  · have hmemb : md.player.steamID ∈ blueTeam.map (fun m => m.player.steamID) :=
      List.mem_map.mpr ⟨md, List.get?_mem hi, rfl⟩
    have hnotred : md.player.steamID ∉ writtenIDs (zipUpdated redTeam ((newRatings.get? 1).getD [])) :=
      fun hm => hdisj hmemb (hred_sub _ hm)
    rw [writeBackTeam, writeBackAux_get?_not_mem _ _ _ hnotred, writeBackTeam]
    exact writeBackAux_get?_written _ _ i md r
      (by rw [zipUpdated_get? _ _ _ _ hi, hpres])
      (by rw [zipUpdated_ids]; exact hndb)
  · have hmemr : md.player.steamID ∈ redTeam.map (fun m => m.player.steamID) :=
      List.mem_map.mpr ⟨md, List.get?_mem hi, rfl⟩
    have hnotred : md.player.steamID ∉ writtenIDs (zipUpdated redTeam ((newRatings.get? 1).getD [])) :=
      writtenIDs_zipUpdated_not_mem _ _ i md hi hmiss hndr
    have hnotblue : md.player.steamID ∉ writtenIDs (zipUpdated blueTeam ((newRatings.get? 0).getD [])) :=
      fun hm => hdisj (hblue_sub _ hm) hmemr
    rw [writeBackTeam, writeBackAux_get?_not_mem _ _ _ hnotred,
      writeBackTeam, writeBackAux_get?_not_mem _ _ _ hnotblue]
  · rw [writeBackTeam]
    exact writeBackAux_get?_written _ _ i md r
      (by rw [zipUpdated_get? _ _ _ _ hi, hpres])
      (by rw [zipUpdated_ids]; exact hndr)

/-- C9: if the oracle's result lacks the updated rating for some player, the
write-back leaves that player's cache entry exactly as it was before the
write-back (the update is skipped), while every player with a present
updated rating still gets it written — the loop is not aborted.  The first
conjunct ties the store processMatch returns to this write-back. -/
theorem writeBack_missing_rating_fail_soft (E : Externals) (st : Store)
    (matchDetails : List MatchDetail) (prev : String → Option (Option MatchDetail))
    (hnd : ((blueTeamOf E matchDetails ++ redTeamOf E matchDetails).map
        (fun m => m.player.steamID)).Nodup) :
    ((processMatch E st matchDetails prev).store = storeAfterWriteBackOf E st matchDetails) ∧
    (∀ i md, (blueTeamOf E matchDetails).get? i = some md →
        ((((newRatingsOf E st matchDetails).get? 0).getD []).get? i = none) →
        Store.get? (storeAfterWriteBackOf E st matchDetails) md.player.steamID
          = Store.get? (storeAfterRatingsOf E st matchDetails) md.player.steamID) ∧
    (∀ i md r, (blueTeamOf E matchDetails).get? i = some md →
        ((((newRatingsOf E st matchDetails).get? 0).getD []).get? i = some r) →
        Store.get? (storeAfterWriteBackOf E st matchDetails) md.player.steamID = some r) ∧
    (∀ i md, (redTeamOf E matchDetails).get? i = some md →
        ((((newRatingsOf E st matchDetails).get? 1).getD []).get? i = none) →
        Store.get? (storeAfterWriteBackOf E st matchDetails) md.player.steamID
          = Store.get? (storeAfterRatingsOf E st matchDetails) md.player.steamID) ∧
    (∀ i md r, (redTeamOf E matchDetails).get? i = some md →
        ((((newRatingsOf E st matchDetails).get? 1).getD []).get? i = some r) →
        Store.get? (storeAfterWriteBackOf E st matchDetails) md.player.steamID = some r) := by
  have h := writeBack_two_team_spec (storeAfterRatingsOf E st matchDetails)
    (blueTeamOf E matchDetails) (redTeamOf E matchDetails)
    (newRatingsOf E st matchDetails) hnd
  exact ⟨rfl, h.1, h.2.1, h.2.2.1, h.2.2.2⟩

/-- Like `sampleExternals` but the oracle defensively returns an empty
updated-ratings sequence for the red team. -/
def shortOracleExternals : Externals :=
  { sampleExternals with rate := fun teams _ => [teams.headD [], []] }

/-- C9 witness: with the short oracle the red player's updated rating is
missing; the cache keeps the entry from before the write-back (the created
rating (25, 8)) and the match is not aborted. -/
theorem writeBack_missing_rating_fail_soft_witness :
    ((redTeamOf shortOracleExternals [mdA, mdB]).get? 0 = some mdB ∧
      ((((newRatingsOf shortOracleExternals Store.empty [mdA, mdB]).get? 1).getD []).get? 0
        = none) ∧
      ((blueTeamOf shortOracleExternals [mdA, mdB] ++ redTeamOf shortOracleExternals [mdA, mdB]).map
        (fun m => m.player.steamID)).Nodup) ∧
      Store.get? (storeAfterWriteBackOf shortOracleExternals Store.empty [mdA, mdB])
          mdB.player.steamID
        = Store.get? (storeAfterRatingsOf shortOracleExternals Store.empty [mdA, mdB])
            mdB.player.steamID ∧
      Store.get? (storeAfterRatingsOf shortOracleExternals Store.empty [mdA, mdB])
          mdB.player.steamID = some (rating 25 8) := by
  refine ⟨⟨by decide, by decide, by decide⟩, ?_, by decide⟩
  exact (writeBack_missing_rating_fail_soft shortOracleExternals Store.empty [mdA, mdB]
    (fun _ => none) (by decide)).2.2.2.1 0 mdB (by decide) (by decide)
